import Mathlib

/-!
Verification of the climate-risk-assessment repository core against its
specification.

This file gives a shallow embedding, in Lean 4, of the two algorithmic cores
of the repository:

* `src/app/brave_search.py` — the adaptive exhaustive document-discovery
  loop (`AdaptiveDocumentSearch.search`), its relevance filter
  (`_should_filter`) and the company-name-variation derivation
  (`_extract_core_names`);
* `src/app/assessment_engine_batched.py` — the fixed 5-batch partition of
  the 44-measure taxonomy (`MEASURE_BATCHES`), the tolerant response parsing
  with defaulting (`_parse_batch_response`), the per-company merge loop of
  `process_company`, and the score aggregation (`_build_assessment_data`).

Modelling conventions:

* Python strings are modelled as Lean `String` or `List Char`; the Python
  methods `str.lower`, `in` (substring test), `str.split`, `str.strip` are
  modelled character-for-character for the ASCII range (`lowCh`, `hasSub`,
  `splitWs`, `trimL`).
* Python dicts are modelled as association lists in insertion order; a JSON
  value (the result of `json.loads`) is modelled by the inductive `JValue`
  (number literals restricted to integers, which covers every behaviour the
  claims exercise).
* The external search capability is modelled as an arbitrary function
  `f : Nat → List (String × α)` giving, for each iteration number, the
  url-keyed candidates that `_search_iteration` produced for that iteration
  (an exception-swallowed query, an empty result page, and repeated urls all
  arise as instances of `f`).  The regex-plus-`json.loads` extraction step of
  `_parse_batch_response` is likewise modelled as an arbitrary function
  `String → Except String JValue`; the parsing claims hold for every such
  behaviour, hence for the concrete regex one.
* Python machine floats are modelled by `ℚ`, with `round(x, 1)` modelled as
  exact rational rounding half-to-even (`pyRound1`), the rounding rule of
  `round` in Python 3.
* Fallible Python code (raising statements inside the guarded `try` block of
  `_parse_batch_response`) is modelled in the `Except String` monad; the
  enclosing `except` handler is the `.error` branch of `parseBatchResponse`.
-/

namespace ClimateRisk

/-! ## Character and string primitives (models of Python `str` methods) -/

/-- Model of CPython `str.lower` on a single ASCII character: the letters
`A`–`Z` (code points 65–90) are shifted by 32, everything else is kept. -/
def lowCh (c : Char) : Char :=
  if 65 ≤ c.toNat ∧ c.toNat ≤ 90 then Char.ofNat (c.toNat + 32) else c

/-- Model of `str.lower` on a whole string (as a character list). -/
def lowerL (l : List Char) : List Char := l.map lowCh

/-- Boolean prefix test on character lists. -/
def listPre : List Char → List Char → Bool
  | [], _ => true
  | _ :: _, [] => false
  | a :: as, b :: bs => a == b && listPre as bs

/-- Model of the Python substring test `needle in hay` on character lists. -/
def hasSub (needle : List Char) : List Char → Bool
  | [] => listPre needle []
  | c :: t => listPre needle (c :: t) || hasSub needle t

/-- `str.lower` on Lean strings. -/
def pyLower (s : String) : String := ⟨lowerL s.data⟩

/-- The Python substring test `needle in hay` on Lean strings. -/
def pyIn (needle hay : String) : Bool := hasSub needle.data hay.data

/-- Python `\s` test: whitespace character. -/
def isWsCh (c : Char) : Bool := c.isWhitespace

/-- Python `\w` test (ASCII range): alphanumeric or underscore. -/
def isWordCh (c : Char) : Bool := c.isAlphanum || c == '_'

/-- Model of `str.strip()`: remove leading and trailing whitespace. -/
def trimL (l : List Char) : List Char :=
  ((l.dropWhile isWsCh).reverse.dropWhile isWsCh).reverse

/-- Auxiliary state-passing loop for `splitWs`. -/
def splitWsAux : List Char → List Char → List (List Char)
  | [], acc => if acc.isEmpty then [] else [acc.reverse]
  | c :: cs, acc =>
    if isWsCh c then
      if acc.isEmpty then splitWsAux cs [] else acc.reverse :: splitWsAux cs []
    else splitWsAux cs (c :: acc)

/-- Model of the argument-free `str.split()`: split on whitespace runs,
dropping empty fields. -/
def splitWs (l : List Char) : List (List Char) := splitWsAux l []

/-- Model of `" ".join ws`. -/
def joinSp : List (List Char) → List Char
  | [] => []
  | [w] => w
  | w :: ws => w ++ ' ' :: joinSp ws

/-! ## `brave_search.py`: module-level constants -/

/-- `GENERIC_DOMAINS` from `src/app/brave_search.py` (a Python set literal,
modelled as a list; only membership is ever used). -/
def GENERIC_DOMAINS : List String :=
  ["ipcc.ch", "unfccc.int", "epa.gov", "nasa.gov", "noaa.gov",
   "wikipedia.org", "britannica.com", "investopedia.com",
   "worldbank.org", "imf.org", "oecd.org", "un.org",
   "climate.gov", "carbonbrief.org", "climatecentral.org"]

/-- `GENERIC_KEYWORDS` from `src/app/brave_search.py`. -/
def GENERIC_KEYWORDS : List String :=
  ["what is climate change", "climate change explained",
   "introduction to", "overview of", "guide to",
   "climate science", "global warming basics"]

/-- The local `climate_keywords` list of `_should_filter`. -/
def CLIMATE_KEYWORDS : List String :=
  ["climate", "sustainability", "esg", "environmental",
   "tcfd", "cdp", "carbon", "emissions", "risk"]

/-- The local `suffixes` list of `_extract_core_names`. -/
def SUFFIXES : List (List Char) :=
  ["inc", "incorporated", "corp", "corporation", "ltd", "limited",
   "ag", "plc", "sa", "nv", "gmbh", "co", "company", "group"].map String.data

/-! ## `AdaptiveDocumentSearch.search` (`src/app/brave_search.py`, lines 50-115)

The per-iteration result of `_search_iteration` (a url-keyed dict of result
metadata, already relevance-filtered) is abstracted as a behaviour function
`f : Nat → List (String × α)`; the document metadata type is an arbitrary
`α`.  The loop state is the url-keyed dict `all_documents` (an association
list in insertion order), the iteration counter, and the
`consecutive_no_new_docs` counter.  The loop guard `iteration <
max_iterations` is realised by the fuel argument, which starts at
`max_iterations` and decreases by one per executed iteration. -/

/-- Dict key-membership test: `url in all_documents`. -/
def containsKey {α : Type} (docs : List (String × α)) (u : String) : Bool :=
  docs.any (fun q => q.1 == u)

/-- Model of the update `for url in previously_unseen:
all_documents[url] = new_docs[url]` — append each candidate whose url is not
yet a key (this also reproduces the url-keyed dict build of
`_search_iteration` when the behaviour function repeats a url inside one
iteration). -/
def addNew {α : Type} (docs new : List (String × α)) : List (String × α) :=
  new.foldl (fun d p => if containsKey d p.1 then d else d ++ [p]) docs

/-- The `while` loop of `AdaptiveDocumentSearch.search`.  Returns the final
document dict together with the number of executed iterations. -/
def searchLoop {α : Type} (f : Nat → List (String × α)) (maxDocs : Nat) :
    Nat → Nat → Nat → List (String × α) → List (String × α) × Nat
  | 0, iteration, _, docs => (docs, iteration)
  | fuel + 1, iteration, counter, docs =>
    if docs.length < maxDocs then
      let it := iteration + 1
      let newDocs := f it
      let noNew := newDocs.all (fun p => containsKey docs p.1)
      let docs' := addNew docs newDocs
      if noNew then
        if 2 ≤ counter + 1 then (docs', it)
        else searchLoop f maxDocs fuel it (counter + 1) docs'
      else searchLoop f maxDocs fuel it 0 docs'
    else (docs, iteration)

/-- `AdaptiveDocumentSearch.search`: run the loop from the empty session
state.  The first component is `list(all_documents.values())` (with its
keys kept alongside), the second is the number of iterations executed. -/
def search {α : Type} (f : Nat → List (String × α)) (maxIterations maxDocs : Nat) :
    List (String × α) × Nat :=
  searchLoop f maxDocs maxIterations 0 0 []

/-! ## `AdaptiveDocumentSearch._should_filter` (lines 352-392) -/

/-- Python truthiness of the optional `isin` argument. -/
def isinTruthy : Option String → Bool
  | none => false
  | some s => !(s == "")

/-- Model of `_should_filter(url, title, snippet, company_name, isin)`.
`variations` is the session state `self.company_name_variations` (a Python
set of already-lowercased tokens, modelled as a list — only emptiness and
an existential scan over it are used, so the set iteration order is
irrelevant).  Returns `true` when the hit is filtered OUT. -/
def shouldFilter (variations : List String) (isin : Option String)
    (url title snippet : String) : Bool :=
  if GENERIC_DOMAINS.any (fun d => pyIn d (pyLower url)) then true
  else if GENERIC_KEYWORDS.any
      (fun k => pyIn k (pyLower title) || pyIn k (pyLower snippet)) then true
  else if isinTruthy isin
      && pyIn (pyLower ((isin.getD ""))) (pyLower (title ++ " " ++ snippet)) then false
  else if !variations.isEmpty then
    if variations.any
        (fun v => pyIn v (pyLower (title ++ " " ++ snippet))
          && CLIMATE_KEYWORDS.any (fun k => pyIn k (pyLower (title ++ " " ++ snippet))))
    then false
    else true
  else true

/-! ## `AdaptiveDocumentSearch._extract_core_names` (lines 153-201)

The returned Python set is modelled as the list of elements in the order the
source adds them (possible duplicates collapse in the set; every claim in
scope is about membership only). -/

/-- Model of `re.sub(r'[^\w\s]', ' ', name)`: replace every character that
is neither a word character nor whitespace by a space. -/
def cleanName (l : List Char) : List Char :=
  l.map (fun c => if isWordCh c || isWsCh c then c else ' ')

/-- The lowered input name (`company_name.lower()`). -/
def nameLower (s : String) : List Char := lowerL s.data

/-- The `core_words` list of `_extract_core_names`: split the cleaned
lowered name and drop legal-entity suffixes and words of length at most 2. -/
def coreWords (s : String) : List (List Char) :=
  (splitWs (cleanName (nameLower s))).filter
    (fun w => !(SUFFIXES.contains w) && decide (2 < w.length))

/-- Model of `_extract_core_names`. -/
def extractCoreNames (s : String) : List (List Char) :=
  match coreWords s with
  | [] => [trimL (nameLower s)]
  | w :: rest =>
    let base :=
      match rest with
      | [] => [w]
      | w2 :: _ => [w, w ++ ' ' :: w2]
    let base := base ++ [joinSp (w :: rest)]
    match rest with
    | [] => base
    | _ :: _ =>
      let ab := ((w :: rest).take 3).map (fun x => x.headD ' ')
      if 2 ≤ ab.length then base ++ [lowerL ab] else base

/-! ## `assessment_engine_batched.py`: JSON and Python dynamic primitives

A parsed JSON document (the output of `json.loads`) is modelled by `JValue`.
The dynamically-typed dict operations used by `_parse_batch_response` are
modelled in the `Except String` monad: the `.error` case stands for a raised
Python exception, caught by the enclosing `except Exception` handler. -/

inductive JValue where
  | jnull
  | jbool (b : Bool)
  | jnum (n : Int)
  | jstr (s : String)
  | jarr (elems : List JValue)
  | jobj (fields : List (String × JValue))

/-- Digit-string value (for the model of `int(str)`). -/
def natOfDigits (ds : List Char) : Nat :=
  ds.foldl (fun a c => a * 10 + (c.toNat - 48)) 0

/-- Helper of `pyIntStr`: a signed, nonempty, all-digit core.  -/
def digitsToInt (sign : Int) (ds : List Char) : Except String Int :=
  if !ds.isEmpty && ds.all Char.isDigit then .ok (sign * natOfDigits ds)
  else .error "ValueError"

/-- Model of `int(s)` for a string `s`: strip whitespace, optional sign,
then a nonempty digit run; anything else raises `ValueError`.  (The Python
underscore digit-grouping extension is not modelled.) -/
def pyIntStr (l : List Char) : Except String Int :=
  match trimL l with
  | '+' :: ds => digitsToInt 1 ds
  | '-' :: ds => digitsToInt (-1) ds
  | ds => digitsToInt 1 ds

/-- Model of the Python conversion `int(v)` on a parsed JSON value:
integers pass through, booleans coerce to 0/1, strings are parsed as
integer literals (`ValueError` on failure), every other type raises
`TypeError`.  -/
def pyInt : JValue → Except String Int
  | .jnum n => .ok n
  | .jbool b => .ok (if b then 1 else 0)
  | .jstr s => pyIntStr s.data
  | _ => .error "TypeError"

/-- Model of `v.get(key, dflt)`: only dicts have `.get`; anything else
raises `AttributeError`.  -/
def pyGet (v : JValue) (key : String) (dflt : JValue) : Except String JValue :=
  match v with
  | .jobj fields => .ok ((fields.lookup key).getD dflt)
  | _ => .error "AttributeError"

/-- Equality of a JSON element with a given string (for Python list
membership `key in xs`).  -/
def jstrElemEq (key : String) : JValue → Bool
  | .jstr s => s == key
  | _ => false

/-- Model of the Python membership test `key in v`: key lookup on dicts,
substring test on strings, element equality on lists, `TypeError`
otherwise.  -/
def pyContains (v : JValue) (key : String) : Except String Bool :=
  match v with
  | .jobj fields => .ok (fields.any (fun p => p.1 == key))
  | .jstr s => .ok (hasSub key.data s.data)
  | .jarr xs => .ok (xs.any (jstrElemEq key))
  | _ => .error "TypeError"

/-- Model of the subscript `v[key]` with a string key: dict lookup
(`KeyError` when absent), `TypeError` on every other type.  -/
def pyIndex (v : JValue) (key : String) : Except String JValue :=
  match v with
  | .jobj fields =>
    match fields.lookup key with
    | some x => .ok x
    | none => .error "KeyError"
  | _ => .error "TypeError"

/-! ## `BatchedAssessmentEngine._parse_batch_response` (lines 339-395) -/

/-- One parsed measure entry, as built by `_parse_batch_response`: the
score is coerced through `int(...)`, the remaining payload fields carry
whatever JSON value the response held (the source performs no validation
on them). -/
structure MeasureResult where
  score : Int
  confidence : JValue
  rationale : JValue
  evidence : JValue
  source : JValue
  ai_model : String

/-- A fully-defaulted measure entry with the given rationale text. -/
def defaultMeasure (rationale model : String) : MeasureResult :=
  { score := 0
    confidence := .jstr "Unknown"
    rationale := .jstr rationale
    evidence := .jstr "No evidence found"
    source := .jstr ""
    ai_model := model }

/-- The per-measure body of the `for measure_id in measure_ids` loop of
`_parse_batch_response` (still inside the `try` block: any raise aborts the
whole batch). -/
def parseMeasure (md : JValue) (id model : String) : Except String MeasureResult := do
  let present ← pyContains md id
  if present then
    let measure ← pyIndex md id
    let scoreV ← pyGet measure "score" (.jnum 0)
    let score ← pyInt scoreV
    let confidence ← pyGet measure "confidence" (.jstr "Unknown")
    let rationale ← pyGet measure "rationale" (.jstr "No rationale provided")
    let evidence ← pyGet measure "evidence" (.jstr "No evidence found")
    let source ← pyGet measure "source" (.jstr "")
    return { score, confidence, rationale, evidence, source, ai_model := model }
  else
    return defaultMeasure "No assessment provided in batch response" model

/-- The accumulating loop over the requested measure ids (inside the
`try`). -/
def parseLoop (md : JValue) (model : String) :
    List String → Except String (List (String × MeasureResult))
  | [] => .ok []
  | id :: rest => do
    let r ← parseMeasure md id model
    let tail ← parseLoop md model rest
    return (id, r) :: tail

/-- Model of `_parse_batch_response(response_text, measure_ids)`.

The composite extraction step — the code-fence regex, the bare
`"measures"`-span regex, and `json.loads` — is abstracted by the argument
`extracted`; its `.error` case covers both "no JSON found in the text" and
a `json.loads` failure.  The `.error` branch of the match is the
`except Exception` handler: every requested id gets a fully-defaulted entry
recording the parse failure. -/
def parseBatchResponse (extracted : Except String JValue) (ids : List String)
    (model : String) : List (String × MeasureResult) :=
  match (do
      let rj ← extracted
      let md ← pyGet rj "measures" (.jobj [])
      parseLoop md model ids) with
  | .ok m => m
  | .error e => ids.map (fun id => (id, defaultMeasure ("Parsing error: " ++ e) model))

/-! ## `MEASURE_BATCHES` (lines 21-36) and the merge loop of
`process_company` (lines 161-196) -/

def batch1 : List String := ["M01", "M02", "M03", "M04", "M05", "M06", "M07", "M08", "M09"]

def batch2 : List String := ["M10", "M11", "M12", "M13", "M14", "M15", "M16", "M17", "M18"]

def batch3 : List String := ["M19", "M20", "M21", "M22", "M23", "M24", "M25", "M26", "M27", "M28"]

def batch4 : List String := ["M29", "M30", "M31", "M32", "M33", "M34", "M35", "M36", "M37"]

def batch5 : List String := ["M38", "M39", "M40", "M41", "M42", "M43", "M44"]

/-- The static batch table `MEASURE_BATCHES`. -/
def MEASURE_BATCHES : List (List String) := [batch1, batch2, batch3, batch4, batch5]

/-- The 44-id taxonomy `M01`…`M44`, the key set of `MEASURE_NAMES`. -/
def allMeasureIds : List String :=
  ["M01", "M02", "M03", "M04", "M05", "M06", "M07", "M08", "M09",
   "M10", "M11", "M12", "M13", "M14", "M15", "M16", "M17", "M18",
   "M19", "M20", "M21", "M22", "M23", "M24", "M25", "M26", "M27", "M28",
   "M29", "M30", "M31", "M32", "M33", "M34", "M35", "M36", "M37",
   "M38", "M39", "M40", "M41", "M42", "M43", "M44"]

/-- Overwrite-in-place step of `dict.update`: an existing entry keeps its
position but takes the incoming value when its key is also a key of the
update argument. -/
def updateEntry {α : Type} (new : List (String × α)) (p : String × α) : String × α :=
  match new.lookup p.1 with
  | some v => (p.1, v)
  | none => p

/-- Model of `dict.update`: keys already present are overwritten in place,
new keys are appended in order. -/
def dictUpdate {α : Type} (d new : List (String × α)) : List (String × α) :=
  d.map (updateEntry new) ++ new.filter (fun p => !(containsKey d p.1))

/-- The batch merge loop of `process_company` step 3: `all_measures = {}`
followed by `all_measures.update(batch_measures)` for each of the five
batches, where the per-batch extraction outcomes are `e1`…`e5`. -/
def mergeAllBatches (e1 e2 e3 e4 e5 : Except String JValue) (model : String) :
    List (String × MeasureResult) :=
  let m := dictUpdate [] (parseBatchResponse e1 batch1 model)
  let m := dictUpdate m (parseBatchResponse e2 batch2 model)
  let m := dictUpdate m (parseBatchResponse e3 batch3 model)
  let m := dictUpdate m (parseBatchResponse e4 batch4 model)
  dictUpdate m (parseBatchResponse e5 batch5 model)

/-! ## `BatchedAssessmentEngine._build_assessment_data` (lines 397-422) -/

/-- Exact model of Python 3 `round` to an integer: round half to even. -/
def pyRoundHE (q : ℚ) : ℤ :=
  if q - ⌊q⌋ = 1 / 2 then (if Even ⌊q⌋ then ⌊q⌋ else ⌊q⌋ + 1) else round q

/-- Exact model of Python `round(q, 1)`. -/
def pyRound1 (q : ℚ) : ℚ := (pyRoundHE (q * 10) : ℚ) / 10

/-- The assessment dict returned by `_build_assessment_data`. -/
structure AssessmentData where
  overall_risk_rating : String
  physical_risk_score : ℚ
  transition_risk_score : ℚ
  measures : List (String × MeasureResult)
  total_measures_assessed : Nat
  assessment_method : String

/-- Model of `_build_assessment_data(all_measures, company_data)` (the
company payload does not influence any returned field). -/
def buildAssessmentData (allMeasures : List (String × MeasureResult)) : AssessmentData :=
  let totalScore : Int := (allMeasures.map (fun p => p.2.score)).sum
  let avgScore : ℚ := (totalScore : ℚ) / 44
  let rating : String :=
    if avgScore ≥ 3 then "Low"
    else if avgScore ≥ 3 / 2 then "Medium"
    else "High"
  { overall_risk_rating := rating
    physical_risk_score := pyRound1 (avgScore * (5 / 2))
    transition_risk_score := 0
    measures := allMeasures
    total_measures_assessed := allMeasures.length
    assessment_method := "Batched DeepSeek V3 (5 batches)" }


/-! ## Concrete inputs used by counterexamples and witnesses -/

/-- A mock behaviour for the C1 witness: iteration 1 yields two urls, every
later iteration re-yields an url already seen in iteration 1. -/
def mockSearchBehavior : Nat → List (String × Nat) := fun i =>
  if i = 1 then [("http://a", 0), ("http://b", 1)] else [("http://a", 2)]

/-- Modelled from the spec (section 3, "Identity is the URL, case- and
scheme-normalized"): lower-case the url and strip an `http` or `https`
scheme prefix.  The source code of `AdaptiveDocumentSearch` contains no url
normalization at all; this definition exists only to compare the spec
notion of document identity against the code behaviour. -/
def specNormalizeUrl (u : String) : String :=
  let d := u.data
  let d := if listPre ("https://".data) d then d.drop 8
           else if listPre ("http://".data) d then d.drop 7
           else d
  ⟨lowerL d⟩

/-- A behaviour whose first iteration returns the same url in two different
spellings of letter case. -/
def caseVariantBehavior : Nat → List (String × Nat) := fun i =>
  if i = 1 then [("http://A/x", 0), ("http://a/x", 1)] else []

/-- A behaviour whose first iteration returns three accepted urls at once. -/
def overshootBehavior : Nat → List (String × Nat) := fun i =>
  if i = 1 then [("u1", 0), ("u2", 0), ("u3", 0)] else []

/-- An extraction behaviour standing for the case in which neither regex
finds JSON in the response text (the source raises
`ValueError: Could not find JSON in response`). -/
def noJsonExtract : String → Except String JValue :=
  fun _ => .error "Could not find JSON in response"

/-- A parsed batch response for the C6 counterexample: the `M01` score is a
non-numeric string (so `int(...)` raises), while `M02` carries a valid
score 3. -/
def coercionFailureResponse : Except String JValue :=
  .ok (.jobj [("measures", .jobj
    [("M01", .jobj [("score", .jstr "abc")]),
     ("M02", .jobj [("score", .jnum 3), ("confidence", .jstr "High")])])])

/-- A measures object for the C6 witness: `M01` present with score 2 and
confidence `High` (rationale, evidence and source fields missing). -/
def happyMeasures : JValue :=
  .jobj [("M01", .jobj [("score", .jnum 2), ("confidence", .jstr "High")])]

/-- The response wrapping `happyMeasures`. -/
def happyResponse : Except String JValue := .ok (.jobj [("measures", happyMeasures)])

/-- A parsed batch response for the C8 counterexample: score 7 is outside
the 0-4 rubric range. -/
def outOfRangeResponse : Except String JValue :=
  .ok (.jobj [("measures", .jobj [("M01", .jobj [("score", .jnum 7)])])])

/-- A response whose measures object is empty (every requested id is
defaulted) - the C8 witness input. -/
def emptyMeasuresResponse : Except String JValue := .ok (.jobj [("measures", .jobj [])])

/-- A measure result with score 2, used 44 times in the C3 witness (total
88, average 2.0). -/
def uniformEntry : MeasureResult :=
  { score := 2
    confidence := .jstr "High"
    rationale := .jstr "r"
    evidence := .jstr "e"
    source := .jstr ""
    ai_model := "DeepSeek V3" }

/-! ## Helper lemmas about the discovery loop -/

theorem containsKey_iff {α : Type} (docs : List (String × α)) (u : String) :
    containsKey docs u = true ↔ u ∈ docs.map Prod.fst := by
  simp only [containsKey, List.any_eq_true, List.mem_map, beq_iff_eq]

theorem containsKey_append {α : Type} (docs : List (String × α)) (p : String × α) (u : String) :
    containsKey (docs ++ [p]) u = (containsKey docs u || (p.1 == u)) := by
  simp [containsKey, List.any_append]

theorem containsKey_addNew_mono {α : Type} (new docs : List (String × α)) (u : String)
    (h : containsKey docs u = true) : containsKey (addNew docs new) u = true := by
  induction new generalizing docs with
  | nil => exact h
  | cons p rest ih =>
    simp only [addNew, List.foldl_cons]
    cases hc : containsKey docs p.1
    · have h2 : containsKey (docs ++ [p]) u = true := by
        rw [containsKey_append, h]; rfl
      simpa [addNew, hc] using ih (docs ++ [p]) h2
    · simpa [addNew, hc] using ih docs h

theorem containsKey_addNew_of_mem {α : Type} (new docs : List (String × α)) (p : String × α)
    (h : p ∈ new) : containsKey (addNew docs new) p.1 = true := by
  induction new generalizing docs with
  | nil => cases h
  | cons q rest ih =>
    rcases List.mem_cons.1 h with rfl | hmem
    · cases hc : containsKey docs p.1
      · have h2 : containsKey (docs ++ [p]) p.1 = true := by
          rw [containsKey_append]
          simp
        simpa [addNew, hc] using containsKey_addNew_mono rest (docs ++ [p]) p.1 h2
      · simpa [addNew, hc] using containsKey_addNew_mono rest docs p.1 hc
    · cases hc : containsKey docs q.1
      · simpa [addNew, hc] using ih (docs ++ [q]) hmem
      · simpa [addNew, hc] using ih docs hmem

theorem addNew_of_noNew {α : Type} (new docs : List (String × α))
    (h : new.all (fun p => containsKey docs p.1) = true) : addNew docs new = docs := by
  induction new generalizing docs with
  | nil => rfl
  | cons p rest ih =>
    simp only [List.all_cons, Bool.and_eq_true] at h
    simpa [addNew, h.1] using ih docs h.2

theorem searchLoop_succ {α : Type} (f : Nat → List (String × α)) (maxDocs fuel it c : Nat)
    (docs : List (String × α)) :
    searchLoop f maxDocs (fuel + 1) it c docs =
      if docs.length < maxDocs then
        if ((f (it + 1)).all fun p => containsKey docs p.1) then
          if 2 ≤ c + 1 then (addNew docs (f (it + 1)), it + 1)
          else searchLoop f maxDocs fuel (it + 1) (c + 1) (addNew docs (f (it + 1)))
        else searchLoop f maxDocs fuel (it + 1) 0 (addNew docs (f (it + 1)))
      else (docs, it) := rfl

theorem searchLoop_iter_le {α : Type} (f : Nat → List (String × α)) (maxDocs : Nat) :
    ∀ fuel it c docs, (searchLoop f maxDocs fuel it c docs).2 ≤ it + fuel := by
  intro fuel
  induction fuel with
  | zero => intro it c docs; simp [searchLoop]
  | succ fuel ih =>
    intro it c docs
    rw [searchLoop_succ]
    by_cases hlen : docs.length < maxDocs
    · rw [if_pos hlen]
      cases hnn : (f (it + 1)).all fun p => containsKey docs p.1
      · simp only [Bool.false_eq_true, if_neg (by exact fun h => h.elim : ¬False)]
        have := ih (it + 1) 0 (addNew docs (f (it + 1)))
        omega
      · simp only [if_pos trivial]
        by_cases hcnt : 2 ≤ c + 1
        · rw [if_pos hcnt]; simp
        · rw [if_neg hcnt]
          have := ih (it + 1) (c + 1) (addNew docs (f (it + 1)))
          omega
    · rw [if_neg hlen]; omega

theorem searchLoop_stops_within_two {α : Type} (f : Nat → List (String × α)) (maxDocs : Nat)
    (fuel it c : Nat) (docs : List (String × α))
    (h : ∀ j, it < j → ∀ p ∈ f j, containsKey docs p.1 = true) :
    (searchLoop f maxDocs fuel it c docs).2 ≤ it + 2 := by
  match fuel with
  | 0 => simp [searchLoop]
  | fuel + 1 =>
    rw [searchLoop_succ]
    by_cases hlen : docs.length < maxDocs
    · rw [if_pos hlen]
      have hall : ((f (it + 1)).all fun p => containsKey docs p.1) = true := by
        simp only [List.all_eq_true]
        intro p hp
        exact h (it + 1) (by omega) p hp
      have hsame : addNew docs (f (it + 1)) = docs := addNew_of_noNew _ _ hall
      rw [hall, if_pos rfl, hsame]
      by_cases hcnt : 2 ≤ c + 1
      · rw [if_pos hcnt]; simp
      · rw [if_neg hcnt]
        match fuel with
        | 0 => simp [searchLoop]
        | fuel + 1 =>
          rw [searchLoop_succ]
          by_cases hlen2 : docs.length < maxDocs
          · rw [if_pos hlen2]
            have hall2 : ((f (it + 1 + 1)).all fun p => containsKey docs p.1) = true := by
              simp only [List.all_eq_true]
              intro p hp
              exact h (it + 1 + 1) (by omega) p hp
            have hsame2 : addNew docs (f (it + 1 + 1)) = docs := addNew_of_noNew _ _ hall2
            rw [hall2, if_pos rfl, hsame2, if_pos (by omega : 2 ≤ c + 1 + 1)]
          · rw [if_neg hlen2]; omega
    · rw [if_neg hlen]; omega

theorem search_mock_le_three {α : Type} (f : Nat → List (String × α)) (maxIterations maxDocs : Nat)
    (h : ∀ i, 2 ≤ i → ∀ p ∈ f i, ∃ q ∈ f 1, q.1 = p.1) :
    (search f maxIterations maxDocs).2 ≤ 3 := by
  unfold search
  match maxIterations with
  | 0 => simp [searchLoop]
  | fuel + 1 =>
    rw [searchLoop_succ]
    by_cases hlen : (0 : Nat) < maxDocs
    · rw [if_pos (by simpa using hlen)]
      have hkey : ∀ j, 1 < j → ∀ p ∈ f j, containsKey (addNew [] (f 1)) p.1 = true := by
        intro j hj p hp
        obtain ⟨q, hq, hq1⟩ := h j (by omega) p hp
        rw [← hq1]
        exact containsKey_addNew_of_mem _ _ _ hq
      cases hnn : (f (0 + 1)).all fun p => containsKey [] p.1
      · simp only [Bool.false_eq_true, if_neg (by exact fun hf => hf.elim : ¬False)]
        have := searchLoop_stops_within_two f maxDocs fuel 1 0 (addNew [] (f 1)) (by simpa using hkey)
        simpa using this
      · rw [if_pos rfl, if_neg (by omega : ¬ 2 ≤ 0 + 1)]
        have := searchLoop_stops_within_two f maxDocs fuel 1 1 (addNew [] (f 1)) (by simpa using hkey)
        simpa using this
    · rw [if_neg (by simpa using hlen)]; simp

theorem addNew_keys_nodup {α : Type} (new docs : List (String × α))
    (h : (docs.map Prod.fst).Nodup) : ((addNew docs new).map Prod.fst).Nodup := by
  induction new generalizing docs with
  | nil => exact h
  | cons p rest ih =>
    cases hc : containsKey docs p.1
    · have hnotmem : p.1 ∉ docs.map Prod.fst := by
        intro hmem
        rw [← containsKey_iff] at hmem
        rw [hc] at hmem
        cases hmem
      have h2 : ((docs ++ [p]).map Prod.fst).Nodup := by
        simp only [List.map_append, List.map_cons, List.map_nil]
        simp [List.nodup_append, h, hnotmem]
      simpa [addNew, hc] using ih (docs ++ [p]) h2
    · simpa [addNew, hc] using ih docs h

theorem searchLoop_keys_nodup {α : Type} (f : Nat → List (String × α)) (maxDocs : Nat) :
    ∀ fuel it c docs, (docs.map (Prod.fst (α := String) (β := α))).Nodup →
      (((searchLoop f maxDocs fuel it c docs).1.map Prod.fst)).Nodup := by
  intro fuel
  induction fuel with
  | zero => intro it c docs h; simpa [searchLoop] using h
  | succ fuel ih =>
    intro it c docs h
    rw [searchLoop_succ]
    by_cases hlen : docs.length < maxDocs
    · rw [if_pos hlen]
      cases hnn : (f (it + 1)).all fun p => containsKey docs p.1
      · simp only [Bool.false_eq_true, if_neg (by exact fun hf => hf.elim : ¬False)]
        exact ih (it + 1) 0 _ (addNew_keys_nodup _ _ h)
      · rw [if_pos rfl]
        by_cases hcnt : 2 ≤ c + 1
        · rw [if_pos hcnt]
          exact addNew_keys_nodup _ _ h
        · rw [if_neg hcnt]
          exact ih (it + 1) (c + 1) _ (addNew_keys_nodup _ _ h)
    · rw [if_neg hlen]; exact h

/-! ## Claim C1: termination contract of the adaptive search loop -/

/-- C1: for every behaviour of the external search capability, the adaptive
search runs at most `max_iterations` iterations (conjunct 1); the loop stops
at an iteration boundary once the document count has reached `max_documents`
(conjunct 2); an iteration that adds at least one new url continues with the
consecutive-empty counter reset to 0 (conjunct 3); an empty iteration
increments the counter (conjunct 4); the second consecutive empty iteration
stops the loop (conjunct 5); and for a mock behaviour that from iteration 2
onward returns only urls already seen in iteration 1, the search terminates
by iteration 3 (conjunct 6). -/
theorem search_termination {α : Type} (f : Nat → List (String × α))
    (maxIterations maxDocs : Nat) :
    (search f maxIterations maxDocs).2 ≤ maxIterations
    ∧ (∀ fuel it c docs, maxDocs ≤ docs.length →
        searchLoop f maxDocs (fuel + 1) it c docs = (docs, it))
    ∧ (∀ fuel it c docs, docs.length < maxDocs →
        ((f (it + 1)).all fun p => containsKey docs p.1) = false →
        searchLoop f maxDocs (fuel + 1) it c docs
          = searchLoop f maxDocs fuel (it + 1) 0 (addNew docs (f (it + 1))))
    ∧ (∀ fuel it docs, docs.length < maxDocs →
        ((f (it + 1)).all fun p => containsKey docs p.1) = true →
        searchLoop f maxDocs (fuel + 1) it 0 docs
          = searchLoop f maxDocs fuel (it + 1) 1 (addNew docs (f (it + 1))))
    ∧ (∀ fuel it c docs, docs.length < maxDocs → 1 ≤ c →
        ((f (it + 1)).all fun p => containsKey docs p.1) = true →
        searchLoop f maxDocs (fuel + 1) it c docs = (addNew docs (f (it + 1)), it + 1))
    ∧ ((∀ i, 2 ≤ i → ∀ p ∈ f i, ∃ q ∈ f 1, q.1 = p.1) →
        (search f maxIterations maxDocs).2 ≤ 3) := by
  refine ⟨by simpa using searchLoop_iter_le f maxDocs maxIterations 0 0 [], ?_, ?_, ?_, ?_,
    search_mock_le_three f maxIterations maxDocs⟩
  · intro fuel it c docs hlen
    rw [searchLoop_succ, if_neg (by omega)]
  · intro fuel it c docs hlen hnn
    rw [searchLoop_succ, if_pos hlen, hnn, if_neg (by simp)]
  · intro fuel it docs hlen hnn
    rw [searchLoop_succ, if_pos hlen, hnn, if_pos rfl, if_neg (by omega)]
  · intro fuel it c docs hlen hc hnn
    rw [searchLoop_succ, if_pos hlen, hnn, if_pos rfl, if_pos (by omega)]


/-- Witness for C1 at the mock behaviour: the search stops by iteration 3
(and in any case within the 10 allowed iterations). -/
theorem search_termination_witness :
    (search mockSearchBehavior 10 100).2 ≤ 3 ∧ (search mockSearchBehavior 10 100).2 ≤ 10 := by
  constructor
  · apply (search_termination mockSearchBehavior 10 100).2.2.2.2.2
    intro i hi p hp
    have h1 : i ≠ 1 := by omega
    simp only [mockSearchBehavior, if_neg h1] at hp
    simp only [List.mem_singleton] at hp
    subst hp
    exact ⟨("http://a", 0), by simp [mockSearchBehavior], rfl⟩
  · exact (search_termination mockSearchBehavior 10 100).1

/-! ## Claim C5: deduplication of the discovery output -/



/-- Counterexample to C5 as stated: the discovery output can contain two
documents whose urls agree after case- and scheme-normalization, because the
code deduplicates on the verbatim url string only. -/
theorem search_dedup_normalized_cex :
    ((search caseVariantBehavior 5 10).1.map Prod.fst = ["http://A/x", "http://a/x"])
    ∧ specNormalizeUrl "http://A/x" = specNormalizeUrl "http://a/x"
    ∧ "http://A/x" ≠ "http://a/x" := by
  refine ⟨by decide, by decide, by decide⟩

/-- C5 (amended): for every behaviour of the external search capability, the
discovery output contains no two documents with the same verbatim url
string (deduplication is on the exact url, with no case or scheme
normalization). -/
theorem search_dedup_exact_url (α : Type) (f : Nat → List (String × α))
    (maxIterations maxDocs : Nat) :
    (((search f maxIterations maxDocs).1.map Prod.fst)).Nodup := by
  exact searchLoop_keys_nodup f maxDocs maxIterations 0 0 [] (by simp)

/-! ## Claim C10: the `max_documents` limit is only checked at iteration
boundaries -/


/-- C10: with `max_documents = 2`, an iteration that adds three new urls
makes the search return three documents — `len(result) <= max_documents` is
not an invariant of the discovery contract. -/
theorem search_max_documents_overshoot :
    ¬ ((search overshootBehavior 5 2).1.length ≤ 2)
    ∧ (search overshootBehavior 5 2).1.length = 3 := by
  refine ⟨by decide, by decide⟩



theorem exceptBind_ok {ε α β : Type} (a : α) (g : α → Except ε β) :
    (Except.ok a >>= g) = g a := rfl

theorem exceptBind_error {ε α β : Type} (e : ε) (g : α → Except ε β) :
    ((Except.error e : Except ε α) >>= g) = Except.error e := rfl

theorem parseLoop_ok_keys (md : JValue) (model : String) :
    ∀ (ids : List String) (l : List (String × MeasureResult)),
      parseLoop md model ids = .ok l → l.map Prod.fst = ids := by
  intro ids
  induction ids with
  | nil =>
    intro l h
    simp only [parseLoop] at h
    cases h
    rfl
  | cons id rest ih =>
    intro l h
    simp only [parseLoop] at h
    cases hm : parseMeasure md id model with
    | error msg => rw [hm, exceptBind_error] at h; cases h
    | ok r =>
      rw [hm, exceptBind_ok] at h
      cases ht : parseLoop md model rest with
      | error msg => rw [ht, exceptBind_error] at h; cases h
      | ok tail =>
        rw [ht, exceptBind_ok] at h
        cases h
        simp [ih tail ht]

theorem parseLoop_ok_forall (md : JValue) (model : String) :
    ∀ (ids : List String) (l : List (String × MeasureResult)),
      parseLoop md model ids = .ok l →
      ∀ p ∈ l, parseMeasure md p.1 model = .ok p.2 := by
  intro ids
  induction ids with
  | nil =>
    intro l h p hp
    simp only [parseLoop] at h
    cases h
    cases hp
  | cons id rest ih =>
    intro l h p hp
    simp only [parseLoop] at h
    cases hm : parseMeasure md id model with
    | error msg => rw [hm, exceptBind_error] at h; cases h
    | ok r =>
      rw [hm, exceptBind_ok] at h
      cases ht : parseLoop md model rest with
      | error msg => rw [ht, exceptBind_error] at h; cases h
      | ok tail =>
        rw [ht, exceptBind_ok] at h
        cases h
        rcases List.mem_cons.1 hp with rfl | hmem
        · exact hm
        · exact ih tail ht p hmem

theorem parseLoop_ok_mem (md : JValue) (model : String) :
    ∀ (ids : List String) (l : List (String × MeasureResult)),
      parseLoop md model ids = .ok l →
      ∀ id ∈ ids, ∀ r, parseMeasure md id model = .ok r → (id, r) ∈ l := by
  intro ids
  induction ids with
  | nil => intro l h id hid; cases hid
  | cons id0 rest ih =>
    intro l h id hid r hr
    simp only [parseLoop] at h
    cases hm : parseMeasure md id0 model with
    | error msg => rw [hm, exceptBind_error] at h; cases h
    | ok r0 =>
      rw [hm, exceptBind_ok] at h
      cases ht : parseLoop md model rest with
      | error msg => rw [ht, exceptBind_error] at h; cases h
      | ok tail =>
        rw [ht, exceptBind_ok] at h
        cases h
        rcases List.mem_cons.1 hid with rfl | hmem
        · rw [hm] at hr
          cases hr
          exact List.mem_cons_self _ _
        · exact List.mem_cons_of_mem _ (ih tail ht id hmem r hr)

theorem parseLoop_error_of_mem (md : JValue) (model : String) :
    ∀ (ids : List String) (id : String), id ∈ ids →
      ∀ msg, parseMeasure md id model = .error msg →
      ∃ msg2, parseLoop md model ids = .error msg2 := by
  intro ids
  induction ids with
  | nil => intro id hid; cases hid
  | cons id0 rest ih =>
    intro id hid msg hmsg
    rcases List.mem_cons.1 hid with rfl | hmem
    · exact ⟨msg, by simp only [parseLoop]; rw [hmsg, exceptBind_error]⟩
    · cases hm : parseMeasure md id0 model with
      | error m0 => exact ⟨m0, by simp only [parseLoop]; rw [hm, exceptBind_error]⟩
      | ok r0 =>
        obtain ⟨m2, hm2⟩ := ih id hmem msg hmsg
        refine ⟨m2, ?_⟩
        simp only [parseLoop]
        rw [hm, exceptBind_ok, hm2, exceptBind_error]

theorem map_fst_default {β : Type} (g : String → β) (ids : List String) :
    List.map (Prod.fst ∘ fun id => (id, g id)) ids = ids := by
  have h : (Prod.fst ∘ fun id : String => (id, g id)) = id := rfl
  rw [h, List.map_id]

theorem parseBatch_keys (e : Except String JValue) (ids : List String) (model : String) :
    (parseBatchResponse e ids model).map Prod.fst = ids := by
  unfold parseBatchResponse
  cases e with
  | error msg =>
    rw [exceptBind_error]
    simp only [List.map_map]
    exact map_fst_default _ ids
  | ok rj =>
    rw [exceptBind_ok]
    cases hg : pyGet rj "measures" (.jobj []) with
    | error msg =>
      rw [exceptBind_error]
      simp only [List.map_map]
      exact map_fst_default _ ids
    | ok md =>
      rw [exceptBind_ok]
      cases hl : parseLoop md model ids with
      | error msg =>
        show List.map Prod.fst
          (List.map (fun id => (id, defaultMeasure ("Parsing error: " ++ msg) model)) ids) = ids
        rw [List.map_map]
        exact map_fst_default _ ids
      | ok l => simpa using parseLoop_ok_keys md model ids l hl



theorem any_key_false_iff {β : Type} (k : String) :
    ∀ fields : List (String × β),
      ((fields.any fun p => p.1 == k) = false) ↔ fields.lookup k = none := by
  intro fields
  simp only [List.any_eq_false, List.lookup_eq_none_iff, bne_iff_ne, beq_iff_eq, ne_eq]
  constructor
  · intro h p hp he
    exact (h p hp) he.symm
  · intro h p hp he
    exact (h p hp) he.symm

theorem any_key_true_of_lookup {β : Type} (k : String) (fields : List (String × β))
    (v : β) (h : fields.lookup k = some v) : (fields.any fun p => p.1 == k) = true := by
  cases ha : fields.any fun p => p.1 == k
  · rw [(any_key_false_iff k fields).1 ha] at h
    cases h
  · rfl

theorem parseMeasure_absent (ms : List (String × JValue)) (id model : String)
    (h : ms.lookup id = none) :
    parseMeasure (.jobj ms) id model
      = .ok (defaultMeasure "No assessment provided in batch response" model) := by
  have hany : (ms.any fun p => p.1 == id) = false := (any_key_false_iff id ms).2 h
  simp only [parseMeasure, pyContains]
  rw [exceptBind_ok, hany]
  rfl

theorem parseMeasure_present_obj (ms : List (String × JValue)) (m : List (String × JValue))
    (id model : String) (hm : ms.lookup id = some (.jobj m))
    (s : Int) (hs : pyInt ((m.lookup "score").getD (.jnum 0)) = .ok s) :
    parseMeasure (.jobj ms) id model
      = .ok { score := s
              confidence := (m.lookup "confidence").getD (.jstr "Unknown")
              rationale := (m.lookup "rationale").getD (.jstr "No rationale provided")
              evidence := (m.lookup "evidence").getD (.jstr "No evidence found")
              source := (m.lookup "source").getD (.jstr "")
              ai_model := model } := by
  have hany : (ms.any fun p => p.1 == id) = true := any_key_true_of_lookup id ms _ hm
  simp only [parseMeasure, pyContains, pyIndex, pyGet]
  rw [exceptBind_ok, hany, if_pos rfl, hm, exceptBind_ok, exceptBind_ok, hs, exceptBind_ok,
    exceptBind_ok, exceptBind_ok, exceptBind_ok, exceptBind_ok]
  rfl

theorem parseMeasure_present_score_error (ms : List (String × JValue))
    (m : List (String × JValue)) (id model : String) (hm : ms.lookup id = some (.jobj m))
    (msg : String) (hs : pyInt ((m.lookup "score").getD (.jnum 0)) = .error msg) :
    parseMeasure (.jobj ms) id model = .error msg := by
  have hany : (ms.any fun p => p.1 == id) = true := any_key_true_of_lookup id ms _ hm
  simp only [parseMeasure, pyContains, pyIndex, pyGet]
  rw [exceptBind_ok, hany, if_pos rfl, hm, exceptBind_ok, exceptBind_ok, hs, exceptBind_error]

theorem parseMeasure_ok_cases (md : JValue) (id model : String) (r : MeasureResult)
    (h : parseMeasure md id model = .ok r) :
    r = defaultMeasure "No assessment provided in batch response" model
    ∨ ∃ ms m, md = .jobj ms ∧ ms.lookup id = some (.jobj m) ∧
        ∃ s, pyInt ((m.lookup "score").getD (.jnum 0)) = .ok s ∧
          r = { score := s
                confidence := (m.lookup "confidence").getD (.jstr "Unknown")
                rationale := (m.lookup "rationale").getD (.jstr "No rationale provided")
                evidence := (m.lookup "evidence").getD (.jstr "No evidence found")
                source := (m.lookup "source").getD (.jstr "")
                ai_model := model } := by
  cases md with
  | jnull => simp only [parseMeasure, pyContains] at h; rw [exceptBind_error] at h; cases h
  | jbool b => simp only [parseMeasure, pyContains] at h; rw [exceptBind_error] at h; cases h
  | jnum n => simp only [parseMeasure, pyContains] at h; rw [exceptBind_error] at h; cases h
  | jstr s =>
    simp only [parseMeasure, pyContains] at h
    rw [exceptBind_ok] at h
    cases hsub : hasSub id.data s.data
    · rw [hsub] at h
      simp only [Bool.false_eq_true, if_neg (by exact fun hf => hf.elim : ¬False)] at h
      cases h
      exact Or.inl rfl
    · rw [hsub, if_pos rfl] at h
      simp only [pyIndex] at h
      rw [exceptBind_error] at h
      cases h
  | jarr xs =>
    simp only [parseMeasure, pyContains] at h
    rw [exceptBind_ok] at h
    cases hsub : xs.any (jstrElemEq id)
    · rw [hsub] at h
      simp only [Bool.false_eq_true, if_neg (by exact fun hf => hf.elim : ¬False)] at h
      cases h
      exact Or.inl rfl
    · rw [hsub, if_pos rfl] at h
      simp only [pyIndex] at h
      rw [exceptBind_error] at h
      cases h
  | jobj ms =>
    cases hany : ms.any fun p => p.1 == id
    · have hnone : ms.lookup id = none := (any_key_false_iff id ms).1 hany
      rw [parseMeasure_absent ms id model hnone] at h
      cases h
      exact Or.inl rfl
    · obtain ⟨v, hv⟩ : ∃ v, ms.lookup id = some v := by
        cases hl : ms.lookup id with
        | none => rw [(any_key_false_iff id ms).2 hl] at hany; cases hany
        | some v => exact ⟨v, rfl⟩
      cases v with
      | jobj m =>
        cases hs : pyInt ((m.lookup "score").getD (.jnum 0)) with
        | error msg =>
          rw [parseMeasure_present_score_error ms m id model hv msg hs] at h
          cases h
        | ok s =>
          rw [parseMeasure_present_obj ms m id model hv s hs] at h
          cases h
          exact Or.inr ⟨ms, m, rfl, hv, s, hs, rfl⟩
      | jnull =>
        simp only [parseMeasure, pyContains] at h
        rw [exceptBind_ok, hany, if_pos rfl] at h
        simp only [pyIndex] at h
        rw [hv, exceptBind_ok] at h
        simp only [pyGet] at h
        rw [exceptBind_error] at h
        cases h
      | jbool b =>
        simp only [parseMeasure, pyContains] at h
        rw [exceptBind_ok, hany, if_pos rfl] at h
        simp only [pyIndex] at h
        rw [hv, exceptBind_ok] at h
        simp only [pyGet] at h
        rw [exceptBind_error] at h
        cases h
      | jnum n =>
        simp only [parseMeasure, pyContains] at h
        rw [exceptBind_ok, hany, if_pos rfl] at h
        simp only [pyIndex] at h
        rw [hv, exceptBind_ok] at h
        simp only [pyGet] at h
        rw [exceptBind_error] at h
        cases h
      | jstr s =>
        simp only [parseMeasure, pyContains] at h
        rw [exceptBind_ok, hany, if_pos rfl] at h
        simp only [pyIndex] at h
        rw [hv, exceptBind_ok] at h
        simp only [pyGet] at h
        rw [exceptBind_error] at h
        cases h
      | jarr xs =>
        simp only [parseMeasure, pyContains] at h
        rw [exceptBind_ok, hany, if_pos rfl] at h
        simp only [pyIndex] at h
        rw [hv, exceptBind_ok] at h
        simp only [pyGet] at h
        rw [exceptBind_error] at h
        cases h



theorem parseLoop_all_ok (md : JValue) (model : String) :
    ∀ ids : List String, (∀ id ∈ ids, ∃ r, parseMeasure md id model = .ok r) →
      ∃ l, parseLoop md model ids = .ok l := by
  intro ids
  induction ids with
  | nil => intro h; exact ⟨[], rfl⟩
  | cons id0 rest ih =>
    intro h
    obtain ⟨r0, hr0⟩ := h id0 (List.mem_cons_self _ _)
    obtain ⟨tail, htail⟩ := ih (fun id hid => h id (List.mem_cons_of_mem _ hid))
    refine ⟨(id0, r0) :: tail, ?_⟩
    simp only [parseLoop]
    rw [hr0, exceptBind_ok, htail, exceptBind_ok]
    rfl

/-- C2: for every raw response text (given any behaviour of the composite
regex-and-json extraction step) and every list of requested measure ids,
`_parse_batch_response` returns a map whose key list equals exactly the
requested ids; the function is total (never raises, by construction of the
embedding); and when no JSON can be extracted, every entry is the
parse-failure default with score 0. -/
theorem parse_total_coverage (extract : String → Except String JValue) (text : String)
    (ids : List String) (model : String) :
    ((parseBatchResponse (extract text) ids model).map Prod.fst = ids)
    ∧ (∀ msg, extract text = .error msg →
        parseBatchResponse (extract text) ids model
          = ids.map (fun id => (id, defaultMeasure ("Parsing error: " ++ msg) model)))
    ∧ (∀ msg, extract text = .error msg →
        ∀ p ∈ parseBatchResponse (extract text) ids model, p.2.score = 0) := by
  refine ⟨parseBatch_keys _ ids model, ?_, ?_⟩
  · intro msg h
    rw [h]
    rfl
  · intro msg h p hp
    rw [h] at hp
    have he : parseBatchResponse (.error msg) ids model
        = ids.map (fun id => (id, defaultMeasure ("Parsing error: " ++ msg) model)) := rfl
    rw [he] at hp
    obtain ⟨id, _, rfl⟩ := List.mem_map.1 hp
    rfl

/-- Witness for C2 at the concrete input of the spec: parsing the
non-JSON text "not json" for the batch `M01`, `M02` yields a 2-entry map
keyed exactly by the ids, each entry a default with score 0. -/
theorem parse_total_coverage_witness :
    ((parseBatchResponse (noJsonExtract "not json") ["M01", "M02"] "DeepSeek V3").map Prod.fst
        = ["M01", "M02"])
    ∧ ("M01",
        defaultMeasure "Parsing error: Could not find JSON in response" "DeepSeek V3").2.score
        = 0 := by
  constructor
  · exact (parse_total_coverage noJsonExtract "not json" ["M01", "M02"] "DeepSeek V3").1
  · exact (parse_total_coverage noJsonExtract "not json" ["M01", "M02"] "DeepSeek V3").2.2
      "Could not find JSON in response" rfl
      ("M01", defaultMeasure "Parsing error: Could not find JSON in response" "DeepSeek V3")
      (List.mem_cons_self _ _)

/-- Counterexample to C6 as stated: with `M01` carrying an uncoercible
score string and `M02` carrying a valid score 3, the `int()` failure on
`M01` raises inside the shared `try` block, so BOTH measures come back as
parse-error defaults with score 0 - the result of `M02` does not keep its
parsed value 3, contradicting the per-measure isolation stated in the
claim. -/
theorem parse_coercion_abort_cex :
    pyInt (.jstr "abc") = .error "ValueError"
    ∧ ((parseBatchResponse coercionFailureResponse ["M01", "M02"] "DeepSeek V3").map
        (fun p => (p.1, p.2.score)) = [("M01", 0), ("M02", 0)])
    ∧ ((parseBatchResponse coercionFailureResponse ["M01", "M02"] "DeepSeek V3").map
        (fun p => p.2.rationale)
        = [.jstr "Parsing error: ValueError", .jstr "Parsing error: ValueError"])
    ∧ ¬ (∃ p ∈ parseBatchResponse coercionFailureResponse ["M01", "M02"] "DeepSeek V3",
          p.1 = "M02" ∧ p.2.score = 3) := by
  refine ⟨rfl, by decide, rfl, ?_⟩
  rintro ⟨p, hp, _, h3⟩
  have he : parseBatchResponse coercionFailureResponse ["M01", "M02"] "DeepSeek V3"
      = [("M01", defaultMeasure "Parsing error: ValueError" "DeepSeek V3"),
         ("M02", defaultMeasure "Parsing error: ValueError" "DeepSeek V3")] := rfl
  rw [he] at hp
  rcases List.mem_cons.1 hp with rfl | hp2
  · exact absurd h3 (by decide)
  · rcases List.mem_cons.1 hp2 with rfl | hp3
    · exact absurd h3 (by decide)
    · cases hp3



/-- C6 (amended): per-measure defaulting of `_parse_batch_response`.
Conjunct 1: a coercion (or any other) failure on a single measure aborts
the whole batch - every requested id gets a parse-error default with score
0. Conjunct 2: when every per-measure step succeeds, each requested id maps
to its own parsed entry. Conjunct 3: an id absent from the parsed measures
map gets the full synthesized default. Conjunct 4: a present id with a
JSON-object value gets its score coerced through `int(...)` and the
defaults `Unknown`, `No rationale provided`, `No evidence found` and the
empty string for each missing field. -/
theorem parse_per_measure_defaulting (rj md : JValue) (ids : List String) (model : String)
    (hmd : pyGet rj "measures" (.jobj []) = .ok md) :
    ((∃ id ∈ ids, ∃ msg, parseMeasure md id model = .error msg) →
      ∀ p ∈ parseBatchResponse (.ok rj) ids model,
        p.2.score = 0 ∧ ∃ msg, p.2.rationale = .jstr ("Parsing error: " ++ msg))
    ∧ ((∀ id ∈ ids, ∃ r, parseMeasure md id model = .ok r) →
      ∀ id ∈ ids, ∀ r, parseMeasure md id model = .ok r →
        (id, r) ∈ parseBatchResponse (.ok rj) ids model)
    ∧ (∀ ms, md = .jobj ms → ∀ id, ms.lookup id = none →
        parseMeasure md id model
          = .ok (defaultMeasure "No assessment provided in batch response" model))
    ∧ (∀ ms m, md = .jobj ms → ∀ id, ms.lookup id = some (.jobj m) →
        ∀ s, pyInt ((m.lookup "score").getD (.jnum 0)) = .ok s →
        parseMeasure md id model
          = .ok { score := s
                  confidence := (m.lookup "confidence").getD (.jstr "Unknown")
                  rationale := (m.lookup "rationale").getD (.jstr "No rationale provided")
                  evidence := (m.lookup "evidence").getD (.jstr "No evidence found")
                  source := (m.lookup "source").getD (.jstr "")
                  ai_model := model }) := by
  refine ⟨?_, ?_, ?_, ?_⟩
  · rintro ⟨id, hid, msg, hmsg⟩ p hp
    obtain ⟨msg2, hmsg2⟩ := parseLoop_error_of_mem md model ids id hid msg hmsg
    unfold parseBatchResponse at hp
    rw [exceptBind_ok, hmd, exceptBind_ok, hmsg2] at hp
    obtain ⟨id2, _, rfl⟩ := List.mem_map.1 hp
    exact ⟨rfl, msg2, rfl⟩
  · intro hall id hid r hr
    obtain ⟨l, hl⟩ := parseLoop_all_ok md model ids hall
    have hres : parseBatchResponse (.ok rj) ids model = l := by
      unfold parseBatchResponse
      rw [exceptBind_ok, hmd, exceptBind_ok, hl]
    rw [hres]
    exact parseLoop_ok_mem md model ids l hl id hid r hr
  · rintro ms rfl id hnone
    exact parseMeasure_absent ms id model hnone
  · rintro ms m rfl id hsome s hs
    exact parseMeasure_present_obj ms m id model hsome s hs

/-- Witness for C6 (amended) on a concrete response: the present id `M01`
keeps score 2 and confidence `High` with field defaults for its missing
fields, and the absent id `M02` parses to the full default entry. -/
theorem parse_per_measure_defaulting_witness :
    (("M01",
      ({ score := 2
         confidence := .jstr "High"
         rationale := .jstr "No rationale provided"
         evidence := .jstr "No evidence found"
         source := .jstr ""
         ai_model := "DeepSeek V3" } : MeasureResult))
      ∈ parseBatchResponse happyResponse ["M01", "M02"] "DeepSeek V3")
    ∧ parseMeasure happyMeasures "M02" "DeepSeek V3"
      = .ok (defaultMeasure "No assessment provided in batch response" "DeepSeek V3") := by
  constructor
  · apply (parse_per_measure_defaulting (.jobj [("measures", happyMeasures)]) happyMeasures
      ["M01", "M02"] "DeepSeek V3" rfl).2.1
    · intro id hid
      rcases List.mem_cons.1 hid with rfl | hid2
      · exact ⟨_, rfl⟩
      · rcases List.mem_cons.1 hid2 with rfl | hid3
        · exact ⟨_, rfl⟩
        · cases hid3
    · exact List.mem_cons_self _ _
    · rfl
  · exact (parse_per_measure_defaulting (.jobj [("measures", happyMeasures)]) happyMeasures
      ["M01", "M02"] "DeepSeek V3" rfl).2.2.1
      [("M01", .jobj [("score", .jnum 2), ("confidence", .jstr "High")])] rfl "M02" rfl



/-- Counterexample to C8 as stated: a response assigning score 7 to `M01`
parses to a MeasureResult with score 7, outside the 0-4 range - the parser
performs no range validation. -/
theorem parse_score_range_cex :
    ((parseBatchResponse outOfRangeResponse ["M01"] "DeepSeek V3").map (fun p => p.2.score)
      = [7])
    ∧ ¬ (∀ p ∈ parseBatchResponse outOfRangeResponse ["M01"] "DeepSeek V3",
          0 ≤ p.2.score ∧ p.2.score ≤ 4) := by
  refine ⟨by decide, ?_⟩
  intro h
  have h1 := h ("M01",
    ({ score := 7
       confidence := .jstr "Unknown"
       rationale := .jstr "No rationale provided"
       evidence := .jstr "No evidence found"
       source := .jstr ""
       ai_model := "DeepSeek V3" } : MeasureResult)) (List.mem_cons_self _ _)
  exact absurd h1.2 (by decide)

/-- C8 (amended): the parser carries scores and confidences through
without validation, so the stated invariant holds exactly when the parsed
response itself satisfies it: if every measure object in the extracted
JSON has a score that coerces into 0-4 and a confidence drawn from the
enum whenever present, then every parsed MeasureResult has score in 0-4
and confidence in the Low, Medium, High, Unknown enum (defaulted entries
always comply, with score 0 and confidence Unknown). -/
theorem parse_score_range_conditional (e : Except String JValue) (ids : List String)
    (model : String)
    (hgood : ∀ rj, e = .ok rj → ∀ md, pyGet rj "measures" (.jobj []) = .ok md →
      ∀ ms, md = .jobj ms → ∀ k m, ms.lookup k = some (.jobj m) →
        (∀ s, pyInt ((m.lookup "score").getD (.jnum 0)) = .ok s → 0 ≤ s ∧ s ≤ 4) ∧
        (∀ c, m.lookup "confidence" = some c →
          c = .jstr "Low" ∨ c = .jstr "Medium" ∨ c = .jstr "High" ∨ c = .jstr "Unknown")) :
    ∀ p ∈ parseBatchResponse e ids model,
      (0 ≤ p.2.score ∧ p.2.score ≤ 4)
      ∧ (p.2.confidence = .jstr "Low" ∨ p.2.confidence = .jstr "Medium"
         ∨ p.2.confidence = .jstr "High" ∨ p.2.confidence = .jstr "Unknown") := by
  intro p hp
  unfold parseBatchResponse at hp
  cases e with
  | error msg =>
    rw [exceptBind_error] at hp
    obtain ⟨id, _, rfl⟩ := List.mem_map.1 hp
    exact ⟨by norm_num [defaultMeasure], Or.inr (Or.inr (Or.inr rfl))⟩
  | ok rj =>
    rw [exceptBind_ok] at hp
    cases hg : pyGet rj "measures" (.jobj []) with
    | error msg =>
      rw [hg, exceptBind_error] at hp
      obtain ⟨id, _, rfl⟩ := List.mem_map.1 hp
      exact ⟨by norm_num [defaultMeasure], Or.inr (Or.inr (Or.inr rfl))⟩
    | ok md =>
      rw [hg, exceptBind_ok] at hp
      cases hl : parseLoop md model ids with
      | error msg =>
        rw [hl] at hp
        obtain ⟨id, _, rfl⟩ := List.mem_map.1 hp
        exact ⟨by norm_num [defaultMeasure], Or.inr (Or.inr (Or.inr rfl))⟩
      | ok l =>
        rw [hl] at hp
        have hpm := parseLoop_ok_forall md model ids l hl p hp
        rcases parseMeasure_ok_cases md p.1 model p.2 hpm with hdef | ⟨ms, m, hms, hsome, s, hs, hr⟩
        · rw [hdef]
          exact ⟨by norm_num [defaultMeasure], Or.inr (Or.inr (Or.inr rfl))⟩
        · have hg2 := hgood rj rfl md hg ms hms p.1 m hsome
          have hscore : p.2.score = s := by rw [hr]
          have hconf : p.2.confidence
              = (List.lookup "confidence" m).getD (JValue.jstr "Unknown") := by rw [hr]
          refine ⟨?_, ?_⟩
          · rw [hscore]
            exact hg2.1 s hs
          · rw [hconf]
            cases hc : m.lookup "confidence" with
            | none =>
              exact Or.inr (Or.inr (Or.inr rfl))
            | some c =>
              simp only [Option.getD_some]
              exact hg2.2 c hc

/-- Witness for C8 (amended) at a response with an empty measures object:
the defaulted entry has score 0 (inside 0-4) and confidence Unknown. -/
theorem parse_score_range_conditional_witness :
    (0 ≤ (defaultMeasure "No assessment provided in batch response" "DeepSeek V3").score
      ∧ (defaultMeasure "No assessment provided in batch response" "DeepSeek V3").score ≤ 4)
    ∧ ((defaultMeasure "No assessment provided in batch response" "DeepSeek V3").confidence
        = JValue.jstr "Low"
      ∨ (defaultMeasure "No assessment provided in batch response" "DeepSeek V3").confidence
        = JValue.jstr "Medium"
      ∨ (defaultMeasure "No assessment provided in batch response" "DeepSeek V3").confidence
        = JValue.jstr "High"
      ∨ (defaultMeasure "No assessment provided in batch response" "DeepSeek V3").confidence
        = JValue.jstr "Unknown") := by
  exact parse_score_range_conditional emptyMeasuresResponse ["M01"] "DeepSeek V3"
    (by
      intro rj hrj md hmd ms hms k m hk
      injection hrj with h1
      subst h1
      injection hmd with h2
      subst h2
      injection hms with h3
      subst h3
      exact absurd hk (by simp))
    ("M01", defaultMeasure "No assessment provided in batch response" "DeepSeek V3")
    (List.mem_cons_self _ _)



theorem lookup_eq_none_of_not_mem {β : Type} (k : String) (l : List (String × β))
    (h : k ∉ l.map Prod.fst) : l.lookup k = none := by
  rw [List.lookup_eq_none_iff]
  intro p hp
  simp only [bne_iff_ne, ne_eq]
  intro he
  exact h (he ▸ List.mem_map_of_mem Prod.fst hp)

theorem dictUpdate_nil {α : Type} (new : List (String × α)) : dictUpdate [] new = new := by
  unfold dictUpdate
  simp [containsKey]

theorem dictUpdate_of_disjoint {α : Type} (d new : List (String × α))
    (hdis : ∀ u ∈ d.map Prod.fst, u ∉ new.map Prod.fst) : dictUpdate d new = d ++ new := by
  unfold dictUpdate
  have h1 : d.map (updateEntry new) = d := by
    have hcongr : ∀ p ∈ d, updateEntry new p = p := by
      intro p hp
      unfold updateEntry
      rw [lookup_eq_none_of_not_mem p.1 new (hdis p.1 (List.mem_map_of_mem Prod.fst hp))]
    rw [List.map_congr_left hcongr, List.map_id']
  have h2 : new.filter (fun p => !(containsKey d p.1)) = new := by
    apply List.filter_eq_self.mpr
    intro p hp
    have hc : containsKey d p.1 = false := by
      cases hc : containsKey d p.1
      · rfl
      · exact absurd ((containsKey_iff d p.1).1 hc)
          (fun hmem => hdis p.1 hmem (List.mem_map_of_mem Prod.fst hp))
    rw [hc]
    rfl
  rw [h1, h2]

theorem merge_five_keys (p1 p2 p3 p4 p5 : List (String × MeasureResult))
    (k1 : p1.map Prod.fst = batch1) (k2 : p2.map Prod.fst = batch2)
    (k3 : p3.map Prod.fst = batch3) (k4 : p4.map Prod.fst = batch4)
    (k5 : p5.map Prod.fst = batch5) :
    (dictUpdate (dictUpdate (dictUpdate (dictUpdate (dictUpdate [] p1) p2) p3) p4) p5).map
      Prod.fst = allMeasureIds := by
  have m1 : dictUpdate ([] : List (String × MeasureResult)) p1 = p1 := dictUpdate_nil p1
  have m2 : dictUpdate p1 p2 = p1 ++ p2 :=
    dictUpdate_of_disjoint _ _ (by rw [k1, k2]; decide)
  have m3 : dictUpdate (p1 ++ p2) p3 = (p1 ++ p2) ++ p3 :=
    dictUpdate_of_disjoint _ _ (by rw [List.map_append, k1, k2, k3]; decide)
  have m4 : dictUpdate ((p1 ++ p2) ++ p3) p4 = ((p1 ++ p2) ++ p3) ++ p4 :=
    dictUpdate_of_disjoint _ _ (by
      rw [List.map_append, List.map_append, k1, k2, k3, k4]; decide)
  have m5 : dictUpdate (((p1 ++ p2) ++ p3) ++ p4) p5 = (((p1 ++ p2) ++ p3) ++ p4) ++ p5 :=
    dictUpdate_of_disjoint _ _ (by
      rw [List.map_append, List.map_append, List.map_append, k1, k2, k3, k4, k5]; decide)
  rw [m1, m2, m3, m4, m5]
  rw [List.map_append, List.map_append, List.map_append, List.map_append,
    k1, k2, k3, k4, k5]
  decide

/-- C4: the static `MEASURE_BATCHES` table has 5 batches of sizes 9, 9,
10, 9, 7 whose concatenation is exactly the taxonomy `M01`-`M44` with no
duplicate and no missing id; consequently, for every extraction outcome of
the five batch responses, merging the per-batch parse results with
`dict.update` produces a measures map with exactly the 44 taxonomy keys,
and `_build_assessment_data` reports `total_measures_assessed = 44`. -/
theorem measure_batches_partition (e1 e2 e3 e4 e5 : Except String JValue) (model : String) :
    MEASURE_BATCHES.length = 5
    ∧ MEASURE_BATCHES.map List.length = [9, 9, 10, 9, 7]
    ∧ MEASURE_BATCHES.flatten = allMeasureIds
    ∧ allMeasureIds.Nodup
    ∧ (mergeAllBatches e1 e2 e3 e4 e5 model).map Prod.fst = allMeasureIds
    ∧ (mergeAllBatches e1 e2 e3 e4 e5 model).length = 44
    ∧ (buildAssessmentData (mergeAllBatches e1 e2 e3 e4 e5 model)).total_measures_assessed
        = 44 := by
  have hkeys : (mergeAllBatches e1 e2 e3 e4 e5 model).map Prod.fst = allMeasureIds := by
    show (dictUpdate (dictUpdate (dictUpdate (dictUpdate
        (dictUpdate [] (parseBatchResponse e1 batch1 model))
        (parseBatchResponse e2 batch2 model))
        (parseBatchResponse e3 batch3 model))
        (parseBatchResponse e4 batch4 model))
        (parseBatchResponse e5 batch5 model)).map Prod.fst = allMeasureIds
    exact merge_five_keys _ _ _ _ _
      (parseBatch_keys e1 batch1 model) (parseBatch_keys e2 batch2 model)
      (parseBatch_keys e3 batch3 model) (parseBatch_keys e4 batch4 model)
      (parseBatch_keys e5 batch5 model)
  have hlen : (mergeAllBatches e1 e2 e3 e4 e5 model).length = 44 := by
    have h := congrArg List.length hkeys
    rw [List.length_map] at h
    rw [h]
    decide
  exact ⟨rfl, by decide, by decide, by decide, hkeys, hlen, hlen⟩



/-- C3: for every map of 44 measure results, `_build_assessment_data`
computes `physical_risk_score = round((sum / 44) * 2.5, 1)` (with the
Python banker-rounding of `round`) and assigns the rating `Low` iff the
average is at least 3.0, `Medium` iff it lies in [1.5, 3.0), and `High`
iff it is below 1.5; in particular 44 results with scores summing to 88
yield `physical_risk_score = 5.0` and rating `Medium`. -/
theorem aggregation_thresholds (ms : List (String × MeasureResult))
    (hlen : ms.length = 44) :
    (buildAssessmentData ms).physical_risk_score
      = pyRound1 ((((ms.map (fun p => p.2.score)).sum : Int) : ℚ) / 44 * (5 / 2))
    ∧ ((buildAssessmentData ms).overall_risk_rating = "Low"
        ↔ 3 ≤ (((ms.map (fun p => p.2.score)).sum : Int) : ℚ) / 44)
    ∧ ((buildAssessmentData ms).overall_risk_rating = "Medium"
        ↔ (3 / 2 ≤ (((ms.map (fun p => p.2.score)).sum : Int) : ℚ) / 44
           ∧ (((ms.map (fun p => p.2.score)).sum : Int) : ℚ) / 44 < 3))
    ∧ ((buildAssessmentData ms).overall_risk_rating = "High"
        ↔ (((ms.map (fun p => p.2.score)).sum : Int) : ℚ) / 44 < 3 / 2)
    ∧ (((ms.map (fun p => p.2.score)).sum : Int) = 88 →
        (buildAssessmentData ms).physical_risk_score = 5
        ∧ (buildAssessmentData ms).overall_risk_rating = "Medium") := by
  have havg : (buildAssessmentData ms).overall_risk_rating
      = (if ((((ms.map (fun p => p.2.score)).sum : Int) : ℚ) / 44) ≥ 3 then "Low"
         else if ((((ms.map (fun p => p.2.score)).sum : Int) : ℚ) / 44) ≥ 3 / 2 then "Medium"
         else "High") := rfl
  refine ⟨rfl, ?_, ?_, ?_, ?_⟩
  · rw [havg]
    by_cases h1 : ((((ms.map (fun p => p.2.score)).sum : Int) : ℚ) / 44) ≥ 3
    · rw [if_pos h1]
      exact ⟨fun _ => h1, fun _ => rfl⟩
    · rw [if_neg h1]
      by_cases h2 : ((((ms.map (fun p => p.2.score)).sum : Int) : ℚ) / 44) ≥ 3 / 2
      · rw [if_pos h2]
        exact ⟨fun hcon => absurd hcon (by decide), fun hle => absurd hle h1⟩
      · rw [if_neg h2]
        exact ⟨fun hcon => absurd hcon (by decide), fun hle => absurd hle h1⟩
  · rw [havg]
    by_cases h1 : ((((ms.map (fun p => p.2.score)).sum : Int) : ℚ) / 44) ≥ 3
    · rw [if_pos h1]
      exact ⟨fun hcon => absurd hcon (by decide),
        fun hmed => absurd h1 (not_le.mpr hmed.2)⟩
    · rw [if_neg h1]
      by_cases h2 : ((((ms.map (fun p => p.2.score)).sum : Int) : ℚ) / 44) ≥ 3 / 2
      · rw [if_pos h2]
        exact ⟨fun _ => ⟨h2, not_le.mp h1⟩, fun _ => rfl⟩
      · rw [if_neg h2]
        exact ⟨fun hcon => absurd hcon (by decide), fun hmed => absurd hmed.1 h2⟩
  · rw [havg]
    by_cases h1 : ((((ms.map (fun p => p.2.score)).sum : Int) : ℚ) / 44) ≥ 3
    · rw [if_pos h1]
      refine ⟨fun hcon => absurd hcon (by decide), fun hlt => ?_⟩
      exact absurd h1 (not_le.mpr (lt_of_lt_of_le hlt (by norm_num)))
    · rw [if_neg h1]
      by_cases h2 : ((((ms.map (fun p => p.2.score)).sum : Int) : ℚ) / 44) ≥ 3 / 2
      · rw [if_pos h2]
        exact ⟨fun hcon => absurd hcon (by decide),
          fun hlt => absurd h2 (not_le.mpr hlt)⟩
      · rw [if_neg h2]
        exact ⟨fun _ => not_le.mp h2, fun _ => rfl⟩
  · intro hsum
    have havgval : ((((ms.map (fun p => p.2.score)).sum : Int) : ℚ) / 44) = 2 := by
      rw [hsum]; norm_num
    constructor
    · show pyRound1 (((((ms.map (fun p => p.2.score)).sum : Int) : ℚ) / 44) * (5 / 2)) = 5
      rw [havgval]
      have h52 : (2 : ℚ) * (5 / 2) = 5 := by norm_num
      rw [h52]
      unfold pyRound1 pyRoundHE
      norm_num
    · rw [havg, if_neg (by rw [havgval]; norm_num), if_pos (by rw [havgval]; norm_num)]



/-- Witness for C3: 44 entries of score 2 (sum 88) give
`physical_risk_score = 5` and rating `Medium`. -/
theorem aggregation_thresholds_witness :
    (List.replicate 44 (("M01", uniformEntry) : String × MeasureResult)).length = 44
    ∧ (buildAssessmentData
        (List.replicate 44 (("M01", uniformEntry) : String × MeasureResult))).physical_risk_score
        = 5
    ∧ (buildAssessmentData
        (List.replicate 44 (("M01", uniformEntry) : String × MeasureResult))).overall_risk_rating
        = "Medium" := by
  have hsum : (((List.replicate 44 (("M01", uniformEntry) : String × MeasureResult)).map
      (fun p => p.2.score)).sum : Int) = 88 := by
    simp [List.map_replicate, List.sum_replicate, uniformEntry]
  have h := (aggregation_thresholds
    (List.replicate 44 (("M01", uniformEntry) : String × MeasureResult))
    (by simp)).2.2.2.2 hsum
  exact ⟨by simp, h.1, h.2⟩

theorem listPre_append (n : List Char) :
    ∀ h t : List Char, listPre n h = true → listPre n (h ++ t) = true := by
  induction n with
  | nil => intro h t _; rfl
  | cons a as ih =>
    intro h t hp
    cases h with
    | nil => cases hp
    | cons b bs =>
      simp only [listPre, Bool.and_eq_true] at hp
      simp only [List.cons_append, listPre, Bool.and_eq_true]
      exact ⟨hp.1, ih bs t hp.2⟩

theorem hasSub_nil_left : ∀ t : List Char, hasSub [] t = true := by
  intro t
  cases t with
  | nil => rfl
  | cons c cs => rfl

theorem hasSub_append_right (n : List Char) :
    ∀ h t : List Char, hasSub n h = true → hasSub n (h ++ t) = true := by
  intro h
  induction h with
  | nil =>
    intro t hs
    have hn : n = [] := by
      cases n with
      | nil => rfl
      | cons a as => cases hs
    rw [hn]
    exact hasSub_nil_left t
  | cons c h2 ih =>
    intro t hs
    simp only [hasSub, Bool.or_eq_true] at hs
    simp only [List.cons_append, hasSub, Bool.or_eq_true]
    rcases hs with hpre | hsub
    · exact Or.inl (by simpa [List.cons_append] using listPre_append n (c :: h2) t hpre)
    · exact Or.inr (ih t hsub)

theorem hasSub_append_left (n : List Char) :
    ∀ t h : List Char, hasSub n h = true → hasSub n (t ++ h) = true := by
  intro t
  induction t with
  | nil => intro h hs; exact hs
  | cons c t2 ih =>
    intro h hs
    simp only [List.cons_append, hasSub, Bool.or_eq_true]
    exact Or.inr (ih h hs)




/-- C7 (amended): provided the url does not match the generic-domain
blocklist and no generic-topic phrase occurs, a hit whose combined text
contains a resolved name variation is rejected when neither the identifier
nor any domain-context keyword occurs in the text (conjunct 1), and the
same hit with the word climate appended to its snippet is accepted
(conjunct 2). -/
theorem filter_conservatism (variations : List String) (isin : Option String)
    (url title snippet : String)
    (h1 : GENERIC_DOMAINS.all (fun d => !(pyIn d (pyLower url))) = true)
    (hv : ∃ v ∈ variations, pyIn v (pyLower (title ++ " " ++ snippet)) = true) :
    ((GENERIC_KEYWORDS.all
        (fun k => !(pyIn k (pyLower title)) && !(pyIn k (pyLower snippet))) = true) →
     (∀ s, isin = some s → s ≠ "" →
        pyIn (pyLower s) (pyLower (title ++ " " ++ snippet)) = false) →
     (CLIMATE_KEYWORDS.all (fun k => !(pyIn k (pyLower (title ++ " " ++ snippet)))) = true) →
     shouldFilter variations isin url title snippet = true)
    ∧ ((GENERIC_KEYWORDS.all
        (fun k => !(pyIn k (pyLower title)) && !(pyIn k (pyLower (snippet ++ " climate"))))
          = true) →
       shouldFilter variations isin url title (snippet ++ " climate") = false) := by
  have hdom : (GENERIC_DOMAINS.any (fun d => pyIn d (pyLower url))) = false := by
    rw [List.any_eq_false]
    intro d hd
    have := (List.all_eq_true.1 h1) d hd
    simp only [Bool.not_eq_true'] at this
    simp [this]
  constructor
  · intro h2 h3 hnk
    have hkw : (GENERIC_KEYWORDS.any
        (fun k => pyIn k (pyLower title) || pyIn k (pyLower snippet))) = false := by
      rw [List.any_eq_false]
      intro k hk
      have := (List.all_eq_true.1 h2) k hk
      simp only [Bool.and_eq_true, Bool.not_eq_true'] at this
      simp [this.1, this.2]
    unfold shouldFilter
    rw [hdom, if_neg (by simp), hkw, if_neg (by simp)]
    have hisin : (isinTruthy isin
        && pyIn (pyLower (isin.getD "")) (pyLower (title ++ " " ++ snippet))) = false := by
      cases isin with
      | none => rfl
      | some s =>
        by_cases hse : s = ""
        · subst hse
          rfl
        · have := h3 s rfl hse
          simp only [Option.getD_some]
          rw [this, Bool.and_false]
    rw [hisin, if_neg (by simp)]
    cases variations with
    | nil => rfl
    | cons v0 vrest =>
      have hany : ((v0 :: vrest).any
          (fun v => pyIn v (pyLower (title ++ " " ++ snippet))
            && CLIMATE_KEYWORDS.any
              (fun k => pyIn k (pyLower (title ++ " " ++ snippet))))) = false := by
        rw [List.any_eq_false]
        intro v _
        have hckw : (CLIMATE_KEYWORDS.any
            (fun k => pyIn k (pyLower (title ++ " " ++ snippet)))) = false := by
          rw [List.any_eq_false]
          intro k hk
          have := (List.all_eq_true.1 hnk) k hk
          simp only [Bool.not_eq_true'] at this
          simp [this]
        simp [hckw]
      simp only [List.isEmpty_cons, Bool.not_false, if_pos rfl]
      rw [hany]
      simp
  · intro h2
    obtain ⟨v, hvmem, hvsub⟩ := hv
    have hkw : (GENERIC_KEYWORDS.any
        (fun k => pyIn k (pyLower title) || pyIn k (pyLower (snippet ++ " climate"))))
          = false := by
      rw [List.any_eq_false]
      intro k hk
      have := (List.all_eq_true.1 h2) k hk
      simp only [Bool.and_eq_true, Bool.not_eq_true'] at this
      simp [this.1, this.2]
    have hdata : (title ++ " " ++ (snippet ++ " climate")).data
        = (title ++ " " ++ snippet).data ++ (" climate" : String).data := by
      show (title.data ++ (" " : String).data) ++ (snippet.data ++ (" climate" : String).data)
          = ((title.data ++ (" " : String).data) ++ snippet.data)
            ++ (" climate" : String).data
      simp [List.append_assoc]
    have hvsub2 : pyIn v (pyLower (title ++ " " ++ (snippet ++ " climate"))) = true := by
      show hasSub v.data (lowerL (title ++ " " ++ (snippet ++ " climate")).data) = true
      rw [hdata]
      unfold lowerL
      rw [List.map_append]
      exact hasSub_append_right v.data _ _ hvsub
    have hclim : pyIn "climate" (pyLower (title ++ " " ++ (snippet ++ " climate"))) = true := by
      show hasSub ("climate" : String).data
        (lowerL (title ++ " " ++ (snippet ++ " climate")).data) = true
      rw [hdata]
      unfold lowerL
      rw [List.map_append]
      exact hasSub_append_left _ _ _ (by decide)
    unfold shouldFilter
    rw [hdom, if_neg (by simp), hkw, if_neg (by simp)]
    cases hcond : (isinTruthy isin
        && pyIn (pyLower (isin.getD "")) (pyLower (title ++ " " ++ (snippet ++ " climate"))))
    · rw [if_neg (by simp)]
      have hnonempty : (!variations.isEmpty) = true := by
        cases variations with
        | nil => cases hvmem
        | cons a b => rfl
      rw [hnonempty, if_pos rfl]
      have hany : (variations.any
          (fun w => pyIn w (pyLower (title ++ " " ++ (snippet ++ " climate")))
            && CLIMATE_KEYWORDS.any
              (fun k => pyIn k (pyLower (title ++ " " ++ (snippet ++ " climate"))))))
            = true := by
        rw [List.any_eq_true]
        refine ⟨v, hvmem, ?_⟩
        rw [hvsub2]
        have : (CLIMATE_KEYWORDS.any
            (fun k => pyIn k (pyLower (title ++ " " ++ (snippet ++ " climate"))))) = true := by
          rw [List.any_eq_true]
          exact ⟨"climate", by decide, hclim⟩
        rw [this]
        rfl
      rw [hany, if_pos rfl]
    · rw [if_pos rfl]



/-- Counterexample to C7 as stated: a hit whose text contains the name
variation acme and no domain-context keyword is nevertheless ACCEPTED,
because the ISIN appears verbatim in the text and the identifier check
precedes the context-keyword check - name-without-context is not always
rejected. -/
theorem filter_isin_overrides_cex :
    pyIn "acme" (pyLower ("Acme US0000000001 profile" ++ " " ++ "")) = true
    ∧ CLIMATE_KEYWORDS.all
        (fun k => !(pyIn k (pyLower ("Acme US0000000001 profile" ++ " " ++ "")))) = true
    ∧ shouldFilter ["acme"] (some "US0000000001") "example.com/page"
        "Acme US0000000001 profile" "" = false := by
  decide

/-- Witness for C7 (amended): a concrete hit with the variation acme and
no context keyword is rejected, and the same hit with climate appended to
the snippet is accepted. -/
theorem filter_conservatism_witness :
    shouldFilter ["acme"] none "example.com" "Acme quarterly report" "earnings" = true
    ∧ shouldFilter ["acme"] none "example.com" "Acme quarterly report"
        ("earnings" ++ " climate") = false := by
  have h := filter_conservatism ["acme"] none "example.com" "Acme quarterly report" "earnings"
    (by decide) ⟨"acme", by decide, by decide⟩
  exact ⟨h.1 (by decide) (fun s hs => nomatch hs) (by decide), h.2 (by decide)⟩

theorem lowCh_not_ws (c : Char) (h : isWsCh c = false) : isWsCh (lowCh c) = false := by
  unfold lowCh
  by_cases hc : 65 ≤ c.toNat ∧ c.toNat ≤ 90
  · rw [if_pos hc]
    obtain ⟨h1, h2⟩ := hc
    set n := c.toNat with hn
    interval_cases n <;> decide
  · rw [if_neg hc]
    exact h

theorem mem_dropWhile_of_neg (p : Char → Bool) :
    ∀ (l : List Char) (x : Char), x ∈ l → p x = false → x ∈ l.dropWhile p := by
  intro l
  induction l with
  | nil => intro x hx; cases hx
  | cons a t ih =>
    intro x hx hpx
    rw [List.dropWhile_cons]
    cases hpa : p a
    · rw [if_neg (by simp)]
      exact hx
    · rw [if_pos rfl]
      rcases List.mem_cons.1 hx with rfl | hxt
      · rw [hpx] at hpa
        cases hpa
      · exact ih x hxt hpx

theorem trimL_ne_nil (l : List Char) (h : ∃ c ∈ l, isWsCh c = false) : trimL l ≠ [] := by
  obtain ⟨c, hc, hcws⟩ := h
  unfold trimL
  intro hnil
  rw [List.reverse_eq_nil_iff] at hnil
  have h1 : c ∈ l.dropWhile isWsCh := mem_dropWhile_of_neg isWsCh l c hc hcws
  have h2 : c ∈ (l.dropWhile isWsCh).reverse := List.mem_reverse.mpr h1
  have h3 : c ∈ (l.dropWhile isWsCh).reverse.dropWhile isWsCh :=
    mem_dropWhile_of_neg isWsCh _ c h2 hcws
  rw [hnil] at h3
  cases h3

/-- C9 (amended): for every company name containing at least one
non-whitespace character, the name-variation derivation returns at least
one non-empty token (a core word of length over 2, or the stripped
lower-cased name as last resort). -/
theorem extract_core_names_nonempty (s : String)
    (h : ∃ c ∈ s.data, isWsCh c = false) :
    ∃ t ∈ extractCoreNames s, t ≠ ([] : List Char) := by
  cases hcw : coreWords s with
  | nil =>
    refine ⟨trimL (nameLower s), ?_, ?_⟩
    · unfold extractCoreNames
      rw [hcw]
      exact List.mem_singleton.mpr rfl
    · apply trimL_ne_nil
      obtain ⟨c, hc, hcws⟩ := h
      refine ⟨lowCh c, ?_, lowCh_not_ws c hcws⟩
      unfold nameLower lowerL
      exact List.mem_map_of_mem lowCh hc
  | cons w rest =>
    have hwmem : w ∈ coreWords s := by
      rw [hcw]
      exact List.mem_cons_self _ _
    have hwlen : 2 < w.length := by
      unfold coreWords at hwmem
      have hpred := (List.mem_filter.1 hwmem).2
      rw [Bool.and_eq_true] at hpred
      exact of_decide_eq_true hpred.2
    refine ⟨w, ?_, ?_⟩
    · unfold extractCoreNames
      rw [hcw]
      cases rest with
      | nil => simp
      | cons w2 r2 => simp
    · intro hnil
      rw [hnil] at hwlen
      simp at hwlen

/-- Counterexample to C9 as stated: on the empty company name the
derivation returns the singleton set containing only the empty string, so
it does NOT always contain a non-empty token. -/
theorem extract_core_names_empty_cex :
    extractCoreNames "" = [[]]
    ∧ ¬ (∃ t ∈ extractCoreNames "", t ≠ ([] : List Char)) := by
  refine ⟨rfl, ?_⟩
  rintro ⟨t, ht, hne⟩
  have he : extractCoreNames "" = [[]] := rfl
  rw [he, List.mem_singleton] at ht
  exact hne ht

/-- Witness for C9 (amended) at the name Acme Corp, which contains a
non-whitespace character and yields the non-empty token acme. -/
theorem extract_core_names_nonempty_witness :
    (∃ c ∈ ("Acme Corp" : String).data, isWsCh c = false)
    ∧ (∃ t ∈ extractCoreNames "Acme Corp", t ≠ ([] : List Char)) := by
  exact ⟨by decide, extract_core_names_nonempty "Acme Corp" (by decide)⟩

end ClimateRisk
